import Mathlib

/-!
Verification of the LexFlow Protocol approval-workflow core against its
natural-language specification.

The development shallowly embeds the relevant code of
`backend/app/services/audit_service.py` and `backend/app/api/approvals.py`:

* the persistent store is a Lean list in insertion order (the tables are
  append-only for audit events; `ORDER BY created_at` coincides with
  insertion order because every row is stamped with `datetime.utcnow()`
  at insertion, which is monotone across sequential calls);
* `datetime` values are modelled as `Nat` seconds where only ordering
  matters, and as their literal `isoformat()` `String` where the value is
  fed into a hash;
* SHA-256 is modelled as an abstract digest `H : String → String`;
  theorems that need tamper detection assume `Function.Injective H`
  (collision-freeness), which is the standard idealization of a
  cryptographic hash, and witnesses instantiate `H` with the identity;
* fallible endpoints return `Except ApiErr`; the source raises
  `HTTPException` before mutating any row on every error path modelled
  here, so an `.error` result leaves the store unchanged.
-/

/-- Python truthiness of an `Optional[str]`: `None` and `""` are falsy.
The source guards like `if workspace_id:` and `if not action.comment:`
use exactly this test. -/
def truthy : Option String → Bool
  | none => false
  | some s => s ≠ ""

/-- Errors surfaced by the endpoints, keyed by HTTP status code and the
`detail` message of the `HTTPException` raised in the source.  The spec's
taxonomy maps onto these: `NotFoundError` is `notFound`,
`ValidationError` and `ConflictError` and the magic-link errors are
`badRequest` with the corresponding message. -/
inductive ApiErr where
  | notFound (detail : String)
  | badRequest (detail : String)
deriving DecidableEq, Repr

/-! ## Audit chain (`app/services/audit_service.py`)

`AuditEvent` carries exactly the columns that participate in
`compute_event_hash` or `verify_chain`; the non-hashed metadata columns
(`actor_wallet`, `actor_ip`, `actor_user_agent`, `resource_id`,
`resource_type`) appear in neither and are omitted.  `created_at` is
stored as the literal `isoformat()` string so that the hash input is the
exact persisted timestamp, as in the source. -/

structure AuditEvent where
  id : String
  etype : String
  actor_id : Option String
  workspace_id : Option String
  contract_id : Option String
  detail_json : Option String
  prev_hash : Option String
  hash : String
  created_at : String
deriving DecidableEq, Repr

/-- `x or ''` — how `compute_event_hash` renders an optional field into
the hash input. -/
def orEmpty : Option String → String
  | none => ""
  | some s => s

/-- The pipe-delimited hash input of `AuditService.compute_event_hash`:
`f"{event_id}|{event_type}|{actor_id or ''}|{workspace_id or ''}|{contract_id or ''}|{detail_json or ''}|{prev_hash or ''}|{timestamp}"`. -/
def eventData (event_id etype : String) (actor_id workspace_id contract_id detail_json prev_hash : Option String) (timestamp : String) : String :=
  event_id ++ "|" ++ etype ++ "|" ++ orEmpty actor_id ++ "|" ++ orEmpty workspace_id ++ "|" ++
    orEmpty contract_id ++ "|" ++ orEmpty detail_json ++ "|" ++ orEmpty prev_hash ++ "|" ++ timestamp

/-- `AuditService.compute_event_hash`, with SHA-256 abstracted as `H`. -/
def compute_event_hash (H : String → String) (event_id etype : String)
    (actor_id workspace_id contract_id detail_json prev_hash : Option String)
    (timestamp : String) : String :=
  H (eventData event_id etype actor_id workspace_id contract_id detail_json prev_hash timestamp)

/-- The hash input of a stored event, as recomputed by `verify_chain`
(which feeds the event's own stored columns back in). -/
def eventDataOf (e : AuditEvent) : String :=
  eventData e.id e.etype e.actor_id e.workspace_id e.contract_id e.detail_json e.prev_hash e.created_at

/-- Whether an event is kept by the `workspace_id` filter that both
`get_latest_hash` and `verify_chain` apply.  The filter is only added
when the parameter is truthy (`if workspace_id:`), so `none` and `""`
mean the global chain. -/
def scopeKeeps (ws : Option String) (e : AuditEvent) : Bool :=
  if truthy ws then e.workspace_id == ws else true

/-- The rows returned by the scoped `SELECT` over the audit table, in
`created_at` order (= insertion order, see the module comment). -/
def scopeFilter (ws : Option String) (db : List AuditEvent) : List AuditEvent :=
  db.filter (scopeKeeps ws)

/-- `AuditService.get_latest_hash`: hash of the newest event in scope
(`ORDER BY created_at DESC` + `first()`), `none` on an empty scope. -/
def get_latest_hash (ws : Option String) (db : List AuditEvent) : Option String :=
  (scopeFilter ws db).getLast?.map (·.hash)

/-- The arguments of one `AuditService.log_event` call that reach the
hash (the event id generated by `uuid4()`, the event type, the actors
and references, and the `isoformat()` timestamp). -/
structure LogParams where
  event_id : String
  etype : String
  actor_id : Option String
  contract_id : Option String
  detail_json : Option String
  ts : String
deriving DecidableEq, Repr

/-- `AuditService.log_event`: link to the latest hash in scope, compute
the event hash, append the new row. -/
def log_event (H : String → String) (ws : Option String) (db : List AuditEvent) (p : LogParams) : List AuditEvent :=
  let prev := get_latest_hash ws db
  let h := compute_event_hash H p.event_id p.etype p.actor_id ws p.contract_id p.detail_json prev p.ts
  db ++ [⟨p.event_id, p.etype, p.actor_id, ws, p.contract_id, p.detail_json, prev, h, p.ts⟩]

/-- The store produced by a sequence of sequential `log_event` calls to
one scope, starting from the empty store. -/
def buildChain (H : String → String) (ws : Option String) (ps : List LogParams) : List AuditEvent :=
  ps.foldl (log_event H ws) []

/-- The result dictionary of `AuditService.verify_chain` (the `message`
key is informational only and omitted). -/
structure VerifyResult where
  valid : Bool
  checked_count : Nat
  first_invalid_id : Option String
deriving DecidableEq, Repr

/-- The verification loop of `verify_chain`: oldest-to-newest, check the
stored `prev_hash` against the running accumulator, then the stored
`hash` against the recomputation from the stored columns. -/
def verifyLoop (H : String → String) (prev : Option String) (i : Nat) : List AuditEvent → VerifyResult
  | [] => ⟨true, i, none⟩
  | e :: rest =>
    if e.prev_hash ≠ prev then ⟨false, i, some e.id⟩
    else if e.hash ≠ H (eventDataOf e) then ⟨false, i, some e.id⟩
    else verifyLoop H (some e.hash) (i + 1) rest

/-- `AuditService.verify_chain`: scan the oldest `limit` events of the
scope (the service and the `/audit/verify` endpoint both default
`limit` to 100).  The source's separate empty-store early return yields
the same `⟨true, 0, none⟩` as the loop. -/
def verify_chain (H : String → String) (ws : Option String) (limit : Nat) (db : List AuditEvent) : VerifyResult :=
  verifyLoop H none 0 ((scopeFilter ws db).take limit)

/-- One event as materialized by `log_event` given its predecessor hash. -/
def mkEvent (H : String → String) (ws : Option String) (prev : Option String) (p : LogParams) : AuditEvent :=
  ⟨p.event_id, p.etype, p.actor_id, ws, p.contract_id, p.detail_json, prev,
    compute_event_hash H p.event_id p.etype p.actor_id ws p.contract_id p.detail_json prev p.ts, p.ts⟩

/-- Direct recursive description of the chain grown from a given
predecessor hash; proven equal to `buildChain` below. -/
def chainFrom (H : String → String) (ws : Option String) (prev : Option String) : List LogParams → List AuditEvent
  | [] => []
  | p :: ps =>
    let e := mkEvent H ws prev p
    e :: chainFrom H ws (some e.hash) ps

theorem chainFrom_length (H : String → String) (ws : Option String) (prev : Option String) (ps : List LogParams) :
    (chainFrom H ws prev ps).length = ps.length := by
  induction ps generalizing prev with
  | nil => rfl
  | cons p ps ih => simp [chainFrom, ih]

theorem scopeKeeps_mkEvent (H : String → String) (ws prev : Option String) (p : LogParams) :
    scopeKeeps ws (mkEvent H ws prev p) = true := by
  unfold scopeKeeps mkEvent
  split
  · simp
  · rfl

theorem scopeFilter_chainFrom (H : String → String) (ws prev : Option String) (ps : List LogParams) :
    scopeFilter ws (chainFrom H ws prev ps) = chainFrom H ws prev ps := by
  induction ps generalizing prev with
  | nil => rfl
  | cons p ps ih => simp [chainFrom, scopeFilter, List.filter, scopeKeeps_mkEvent, scopeFilter] at ih ⊢; exact ih _

theorem getLast?_append_singleton {α : Type} (l : List α) (x : α) : (l ++ [x]).getLast? = some x := by
  simp

theorem scopeFilter_append (ws : Option String) (db : List AuditEvent) (e : AuditEvent) :
    scopeFilter ws (db ++ [e]) = scopeFilter ws db ++ if scopeKeeps ws e then [e] else [] := by
  simp [scopeFilter, List.filter_append]
  split <;> simp_all [List.filter]

/-- `buildChain` unfolds to `chainFrom`: appending from store `db` whose
scope part is `db` itself continues the chain at `db`'s last hash. -/
theorem foldl_log_event_eq_chainFrom (H : String → String) (ws : Option String) (ps : List LogParams)
    (db : List AuditEvent) (hdb : scopeFilter ws db = db) :
    ps.foldl (log_event H ws) db = db ++ chainFrom H ws (db.getLast?.map (·.hash)) ps := by
  induction ps generalizing db with
  | nil => simp [chainFrom]
  | cons p ps ih =>
    have hkeep : scopeKeeps ws (mkEvent H ws (db.getLast?.map (·.hash)) p) = true :=
      scopeKeeps_mkEvent H ws _ p
    have hstep : log_event H ws db p = db ++ [mkEvent H ws (db.getLast?.map (·.hash)) p] := by
      simp [log_event, get_latest_hash, hdb, mkEvent]
    have hdb' : scopeFilter ws (db ++ [mkEvent H ws (db.getLast?.map (·.hash)) p]) =
        db ++ [mkEvent H ws (db.getLast?.map (·.hash)) p] := by
      rw [scopeFilter_append, hdb, hkeep]
      simp
    simp only [List.foldl_cons, hstep]
    rw [ih _ hdb']
    simp [chainFrom, getLast?_append_singleton]

theorem buildChain_eq_chainFrom (H : String → String) (ws : Option String) (ps : List LogParams) :
    buildChain H ws ps = chainFrom H ws none ps := by
  have := foldl_log_event_eq_chainFrom H ws ps [] (by rfl)
  simpa [buildChain] using this

/-- The verification loop accepts every chain grown from its running
accumulator. -/
theorem verifyLoop_chainFrom (H : String → String) (ws : Option String) (prev : Option String)
    (i : Nat) (ps : List LogParams) :
    verifyLoop H prev i (chainFrom H ws prev ps) = ⟨true, i + ps.length, none⟩ := by
  induction ps generalizing prev i with
  | nil => simp [chainFrom, verifyLoop]
  | cons p ps ih =>
    simp only [chainFrom, verifyLoop]
    rw [if_neg, if_neg]
    · rw [ih]
      simp only [List.length_cons, VerifyResult.mk.injEq, and_true, true_and]
      omega
    · simp [mkEvent, eventDataOf, eventData, compute_event_hash]
    · simp [mkEvent]

theorem chainFrom_take (H : String → String) (ws prev : Option String) (ps : List LogParams) (n : Nat) :
    (chainFrom H ws prev ps).take n = chainFrom H ws prev (ps.take n) := by
  induction ps generalizing prev n with
  | nil => simp [chainFrom]
  | cons p ps ih =>
    cases n with
    | zero => simp [chainFrom]
    | succ m => simp [chainFrom, List.take, ih]

/-- C1 (amended): a chain of `N` sequential `log_event` calls to one
scope, starting from the empty store, verifies cleanly over that scope;
`verify_chain` only scans the oldest `limit` events, so it reports
`valid = true` with `checked_count = min limit N` (in particular
`checked_count = N` whenever `N ≤ limit`, and `checked_count = 0` on an
empty chain). -/
theorem chain_integrity (H : String → String) (ws : Option String) (ps : List LogParams) (limit : Nat) :
    verify_chain H ws limit (buildChain H ws ps) = ⟨true, min limit ps.length, none⟩ := by
  rw [buildChain_eq_chainFrom, verify_chain, scopeFilter_chainFrom, chainFrom_take,
    verifyLoop_chainFrom]
  simp

/-- Parameters for a 101-event chain (event ids and timestamps are the
decimal indices; every other hashed argument is `None`). -/
def longChainPs : List LogParams :=
  (List.range 101).map (fun i => ⟨toString i, "contract.created", none, none, none, toString i⟩)

/-- C1 counterexample: after `N = 101` sequential appends, `verify`
with its default `limit = 100` (the default of both
`AuditService.verify_chain` and the `/audit/verify` endpoint) returns
`valid = true` but `checked_count = 100 ≠ N`: the claim's
`checked_count = N` fails once `N` exceeds the verification window. -/
theorem chain_integrity_cx :
    longChainPs.length = 101 ∧
    verify_chain (fun _ => "h") none 100 (buildChain (fun _ => "h") none longChainPs) =
      ⟨true, 100, none⟩ := by
  constructor
  · rfl
  · rw [chain_integrity]
    rfl

/-- The hash-relevant persisted columns of an `AuditEvent` that a
tampering step may overwrite. -/
inductive MutField where
  | fid | ftype | factor | fws | fcontract | fdetail | fprev | fhash | fts
deriving DecidableEq, Repr

/-- `e'` is `e` with (at most) the named column overwritten; every other
stored column agrees. -/
def mutatedIn : MutField → AuditEvent → AuditEvent → Prop
  | .fid, e, e' => ∃ v, e' = { e with id := v }
  | .ftype, e, e' => ∃ v, e' = { e with etype := v }
  | .factor, e, e' => ∃ v, e' = { e with actor_id := v }
  | .fws, e, e' => ∃ v, e' = { e with workspace_id := v }
  | .fcontract, e, e' => ∃ v, e' = { e with contract_id := v }
  | .fdetail, e, e' => ∃ v, e' = { e with detail_json := v }
  | .fprev, e, e' => ∃ v, e' = { e with prev_hash := v }
  | .fhash, e, e' => ∃ v, e' = { e with hash := v }
  | .fts, e, e' => ∃ v, e' = { e with created_at := v }

/-- The mutation is visible to verification: it changes the stored
`prev_hash`, the stored `hash`, or the hash-input rendering.  Note that
`none` and `some ""` render identically through `x or ''`, so a
`None ↔ ''` overwrite of an optional column is NOT observable. -/
def observableChange (e e' : AuditEvent) : Prop :=
  e'.prev_hash ≠ e.prev_hash ∨ e'.hash ≠ e.hash ∨ eventDataOf e' ≠ eventDataOf e

/-- At a position whose correct stored event is `e` (so the running
accumulator equals `e.prev_hash`), the event `e'` trips one of the two
`verify_chain` checks. -/
def failsChecks (H : String → String) (e e' : AuditEvent) : Prop :=
  e'.prev_hash ≠ e.prev_hash ∨ e'.hash ≠ H (eventDataOf e')

/-- A single-column observable overwrite of a correctly hashed event
always trips a check, assuming the digest is collision-free. -/
theorem failsChecks_of_mutation (H : String → String) (hinj : Function.Injective H)
    (f : MutField) (e e' : AuditEvent) (hhash : e.hash = H (eventDataOf e))
    (hmut : mutatedIn f e e') (hobs : observableChange e e') :
    failsChecks H e e' := by
  cases f <;> obtain ⟨v, rfl⟩ := hmut
  case fprev =>
    left
    intro hv
    have hv' : v = e.prev_hash := hv
    subst hv'
    rcases hobs with h | h | h <;> exact h rfl
  case fhash =>
    right
    intro hv
    have hv' : v = e.hash := hv.trans hhash.symm
    subst hv'
    rcases hobs with h | h | h <;> exact h rfl
  all_goals
    right
    rcases hobs with h | h | h
    · exact absurd rfl h
    · exact absurd rfl h
    · intro hv
      exact h (hinj (hv.symm.trans hhash))

/-- Replacing the event at position `k` of a well-formed chain with one
that trips a check makes the scan fail exactly there, reporting the
stored id of the replacement. -/
theorem verifyLoop_set_fails (H : String → String) (ws : Option String) (ps : List LogParams)
    (prev : Option String) (i k : Nat) (e e' : AuditEvent)
    (he : (chainFrom H ws prev ps)[k]? = some e) (hfail : failsChecks H e e') :
    verifyLoop H prev i ((chainFrom H ws prev ps).set k e') = ⟨false, i + k, some e'.id⟩ := by
  induction ps generalizing prev i k with
  | nil => simp [chainFrom] at he
  | cons p ps ih =>
    cases k with
    | zero =>
      have he0 : mkEvent H ws prev p = e := by
        simpa [chainFrom] using he
      have hprev : e.prev_hash = prev := by
        rw [← he0]
        rfl
      simp only [chainFrom, List.set]
      rcases hfail with h | h
      · have h' : e'.prev_hash ≠ prev := by
          rw [← hprev]
          exact h
        simp only [verifyLoop]
        rw [if_pos h']
        simp
      · simp only [verifyLoop]
        by_cases hp : e'.prev_hash = prev
        · rw [if_neg (by simp [hp]), if_pos h]
          simp
        · rw [if_pos hp]
          simp
    | succ k =>
      have he' : (chainFrom H ws (some (mkEvent H ws prev p).hash) ps)[k]? = some e := by
        simpa [chainFrom] using he
      simp only [chainFrom, List.set, verifyLoop]
      rw [if_neg (by simp [mkEvent]), if_neg (by simp [mkEvent, eventDataOf, eventData, compute_event_hash])]
      rw [ih _ _ _ he']
      simp only [VerifyResult.mk.injEq, and_true, true_and]
      omega

/-- A scope-respecting store stays scope-respecting after overwriting
one row with an in-scope row. -/
theorem scopeFilter_set (ws : Option String) (l : List AuditEvent) (k : Nat) (e' : AuditEvent)
    (hl : scopeFilter ws l = l) (he' : scopeKeeps ws e' = true) :
    scopeFilter ws (l.set k e') = l.set k e' := by
  unfold scopeFilter at hl ⊢
  rw [List.filter_eq_self] at hl ⊢
  intro a ha
  rcases List.mem_or_eq_of_mem_set ha with h | rfl
  · exact hl a h
  · exact he'

/-- Every event of a grown chain carries the hash recomputable from its
own stored columns. -/
theorem chainFrom_hash_ok (H : String → String) (ws : Option String) (ps : List LogParams)
    (prev : Option String) (k : Nat) (e : AuditEvent)
    (he : (chainFrom H ws prev ps)[k]? = some e) : e.hash = H (eventDataOf e) := by
  induction ps generalizing prev k with
  | nil => simp [chainFrom] at he
  | cons p ps ih =>
    cases k with
    | zero =>
      have h0 : mkEvent H ws prev p = e := by
        simpa [chainFrom] using he
      rw [← h0]
      rfl
    | succ k =>
      exact ih _ _ (by simpa [chainFrom] using he)

/-- C2 (amended): on a chain of sequential appends to one scope (within
the verification window), overwriting any single hash-relevant persisted
column of any one event makes `verify` return `valid = false` with
`first_invalid_id` equal to that event's stored id — the prev-hash
linkage check (for a `prev_hash` overwrite) or the recomputed-hash check
(for every other column) breaks at the mutated event itself — PROVIDED
the overwrite is observable (`None` and `''` render identically into the
hash input, so a `None ↔ ''` overwrite of an optional column evades both
checks) and keeps the event inside the verified scope (a `workspace_id`
overwrite under a workspace-filtered verify removes the event from the
scan instead; if it was the last event the shortened chain verifies
clean).  The digest is assumed collision-free. -/
theorem tamper_detection (H : String → String) (hinj : Function.Injective H)
    (ws : Option String) (ps : List LogParams) (limit : Nat) (hlim : ps.length ≤ limit)
    (k : Nat) (e e' : AuditEvent) (he : (buildChain H ws ps)[k]? = some e)
    (f : MutField) (hmut : mutatedIn f e e') (hobs : observableChange e e')
    (hscope : scopeKeeps ws e' = true) :
    verify_chain H ws limit ((buildChain H ws ps).set k e') = ⟨false, k, some e'.id⟩ := by
  rw [buildChain_eq_chainFrom] at he ⊢
  have hhash : e.hash = H (eventDataOf e) := chainFrom_hash_ok H ws ps none k e he
  have hfail := failsChecks_of_mutation H hinj f e e' hhash hmut hobs
  rw [verify_chain, scopeFilter_set ws _ k e' (scopeFilter_chainFrom H ws none ps) hscope]
  rw [List.take_of_length_le (by rw [List.length_set, chainFrom_length]; exact hlim)]
  simpa using verifyLoop_set_fails H ws ps none 0 k e e' he hfail

/-- The single-append chain used by the tamper-detection counterexample:
one global-scope event whose `actor_id` is the empty string. -/
def cxChainPs : List LogParams :=
  [⟨"e1", "contract.created", some "", none, none, "2026-01-01T00:00:00"⟩]

/-- The stored row produced by `cxChainPs` under the identity digest. -/
def cxEvent : AuditEvent :=
  ⟨"e1", "contract.created", some "", none, none, none, none,
    "e1|contract.created||||||2026-01-01T00:00:00", "2026-01-01T00:00:00"⟩

/-- C2 counterexample: overwriting the persisted `actor_id` of the one
event from `''` to `None` is a genuine single-field mutation of a
hash-relevant column, yet re-running `verify` still reports the chain
valid with no invalid event, because `compute_event_hash` renders `None`
and `''` identically (`actor_id or ''`), so neither check can see the
change.  (The digest is instantiated with the identity; the source's
SHA-256 likewise maps the two equal hash-input strings to equal
digests.) -/
theorem tamper_detection_cx :
    buildChain (fun s => s) none cxChainPs = [cxEvent] ∧
    mutatedIn .factor cxEvent { cxEvent with actor_id := none } ∧
    { cxEvent with actor_id := none } ≠ cxEvent ∧
    verify_chain (fun s => s) none 100 ([cxEvent].set 0 { cxEvent with actor_id := none }) =
      ⟨true, 1, none⟩ := by
  refine ⟨by rfl, ⟨none, rfl⟩, by decide, by rfl⟩

/-- Two-event global chain for the tamper-detection witness. -/
def twPs : List LogParams :=
  [⟨"e1", "t1", none, none, none, "s1"⟩, ⟨"e2", "t2", none, none, none, "s2"⟩]

/-- Its first stored row under the identity digest. -/
def twEvent : AuditEvent := ⟨"e1", "t1", none, none, none, none, none, "e1|t1||||||s1", "s1"⟩

/-- The first row with its event type overwritten. -/
def twMut : AuditEvent := { twEvent with etype := "x" }

theorem tamper_detection_witness :
    Function.Injective (fun s : String => s) ∧
    twPs.length ≤ 100 ∧
    (buildChain (fun s : String => s) none twPs)[0]? = some twEvent ∧
    mutatedIn .ftype twEvent twMut ∧
    observableChange twEvent twMut ∧
    scopeKeeps none twMut = true ∧
    verify_chain (fun s : String => s) none 100
      ((buildChain (fun s : String => s) none twPs).set 0 twMut) = ⟨false, 0, some "e1"⟩ := by
  refine ⟨fun a b h => h, by decide, by rfl, ⟨"x", rfl⟩, Or.inr (Or.inr (by decide)), by rfl, ?_⟩
  exact tamper_detection (fun s : String => s) (fun a b h => h) none twPs 100 (by decide)
    0 twEvent twMut (by rfl) .ftype ⟨"x", rfl⟩ (Or.inr (Or.inr (by decide))) (by rfl)

/-! ## Approval workflow (`app/api/approvals.py`)

The workflow endpoints operate on one `ApprovalRequest` and its
`ApprovalTask` rows; `WfState` holds exactly that slice of the store
plus the trail of `audit_service.log_event` calls made by the
endpoints.  An `.error` result models a raised `HTTPException`: every
error path modelled here raises before mutating any row, so the caller
keeps the unchanged state.  `uuid.uuid4()` identifiers are modelled as
caller-supplied strings; `select(...).where(X.id == ...)` +
`scalar_one_or_none()` on a primary key is modelled as `List.find?` on
the id. -/

inductive ApprovalTaskStatus where
  | pending | approved | rejected | returned | skipped
deriving DecidableEq, Repr

inductive ApprovalRequestStatus where
  | pending | approved | rejected | returned | expired | cancelled
deriving DecidableEq, Repr

inductive ACLSubjectType where
  | user | role | external
deriving DecidableEq, Repr

structure ApprovalTask where
  id : String
  request_id : String
  stage : Nat
  order : Nat
  assignee_type : ACLSubjectType
  assignee_id : String
  status : ApprovalTaskStatus
  acted_at : Option Nat
  comment : Option String
  signature_hash : Option String
deriving DecidableEq, Repr

structure ApprovalRequest where
  id : String
  contract_id : String
  flow_id : Option String
  due_at : Option Nat
  status : ApprovalRequestStatus
  message : Option String
  created_by : String
deriving DecidableEq, Repr

/-- One `audit_service.log_event` call made by a workflow endpoint: the
event type and the arguments the endpoint passes.  (The hash-chain
mechanics of `log_event` itself are verified in the audit section
above; here only the fact and content of the append matter.) -/
structure WfAuditCall where
  etype : String
  actor_id : Option String
  resource_id : Option String
  resource_type : Option String
  comment : Option String
deriving DecidableEq, Repr

/-- The store slice a task-action endpoint touches: the owning request,
its task rows, and the audit-append trail. -/
structure WfState where
  request : ApprovalRequest
  tasks : List ApprovalTask
  audit : List WfAuditCall
deriving DecidableEq, Repr

/-- `_check_and_progress_request`: recompute the request status from the
full task set (all approved → approved; else any rejected → rejected;
else any returned → returned; else leave the status and only send
next-stage notifications, which are external side effects not modelled
here).  Task rows are never modified. -/
def check_and_progress_request (st : WfState) : WfState :=
  if st.tasks.all (fun t => t.status == .approved) then
    { st with request := { st.request with status := .approved } }
  else if st.tasks.any (fun t => t.status == .rejected) then
    { st with request := { st.request with status := .rejected } }
  else if st.tasks.any (fun t => t.status == .returned) then
    { st with request := { st.request with status := .returned } }
  else st

/-- The actor attributed in the task-outcome audit event: the assignee's
user id when the assignee is a user, otherwise null. -/
def taskActor (t : ApprovalTask) : Option String :=
  if t.assignee_type == .user then some t.assignee_id else none

/-- `POST /approvals/tasks/{task_id}/approve`: find the task; 404 if
missing; 400 if it already left `pending`; mark it approved with the
action's comment and signature; recompute the request status; append the
`approval.approved` audit event. -/
def approve_task (st : WfState) (task_id : String) (comment signature : Option String)
    (now : Nat) : Except ApiErr WfState :=
  match st.tasks.find? (fun t => t.id == task_id) with
  | none => .error (.notFound "承認タスクが見つかりません")
  | some t =>
    if t.status != .pending then .error (.badRequest "このタスクは既に処理済みです")
    else
      let t' : ApprovalTask :=
        { t with status := .approved, acted_at := some now, comment := comment,
                 signature_hash := signature }
      let st1 := { st with tasks := st.tasks.map (fun x => if x.id == task_id then t' else x) }
      let st2 := check_and_progress_request st1
      .ok { st2 with audit := st2.audit ++
        [⟨"approval.approved", taskActor t, some t.id, some "approval_task", comment⟩] }

/-- `POST /approvals/tasks/{task_id}/reject`: find the task; 404 if
missing; 400 if it already left `pending`; 400 if the comment is falsy;
mark it rejected; set the whole request's status to `rejected` directly
(no progression recompute); append the `approval.rejected` audit
event. -/
def reject_task (st : WfState) (task_id : String) (comment signature : Option String)
    (now : Nat) : Except ApiErr WfState :=
  match st.tasks.find? (fun t => t.id == task_id) with
  | none => .error (.notFound "承認タスクが見つかりません")
  | some t =>
    if t.status != .pending then .error (.badRequest "このタスクは既に処理済みです")
    else if !truthy comment then .error (.badRequest "否認理由を入力してください")
    else
      let t' : ApprovalTask :=
        { t with status := .rejected, acted_at := some now, comment := comment,
                 signature_hash := signature }
      .ok { request := { st.request with status := .rejected }
            tasks := st.tasks.map (fun x => if x.id == task_id then t' else x)
            audit := st.audit ++
              [⟨"approval.rejected", taskActor t, some t.id, some "approval_task", comment⟩] }

/-- `POST /approvals/tasks/{task_id}/return`: like reject but marks the
task and the request `returned`, and does not store a signature. -/
def return_task (st : WfState) (task_id : String) (comment : Option String)
    (now : Nat) : Except ApiErr WfState :=
  match st.tasks.find? (fun t => t.id == task_id) with
  | none => .error (.notFound "承認タスクが見つかりません")
  | some t =>
    if t.status != .pending then .error (.badRequest "このタスクは既に処理済みです")
    else if !truthy comment then .error (.badRequest "差戻し理由を入力してください")
    else
      let t' : ApprovalTask :=
        { t with status := .returned, acted_at := some now, comment := comment }
      .ok { request := { st.request with status := .returned }
            tasks := st.tasks.map (fun x => if x.id == task_id then t' else x)
            audit := st.audit ++
              [⟨"approval.returned", taskActor t, some t.id, some "approval_task", comment⟩] }

/-- The three task actions behind one entry point (`sendBack` is the
`/return` endpoint; `return` is a Lean keyword). -/
inductive TaskAction where
  | approve | reject | sendBack
deriving DecidableEq, Repr

def act_on_task (a : TaskAction) (st : WfState) (task_id : String)
    (comment signature : Option String) (now : Nat) : Except ApiErr WfState :=
  match a with
  | .approve => approve_task st task_id comment signature now
  | .reject => reject_task st task_id comment signature now
  | .sendBack => return_task st task_id comment now

/-- One assignee entry of a stage definition
(`{"type": ..., "id": ..., "order": ...}`, with the source's defaults
`type="user"`, `order=1` applied at parse time). -/
structure ApprovalAssignee where
  atype : ACLSubjectType
  aid : String
  aorder : Nat
deriving DecidableEq, Repr

/-- One stage definition (`ApprovalStage` schema / the JSON stored in
`ApprovalFlow.definition_json`, with the default `stage=1` applied). -/
structure ApprovalStageDef where
  stage : Nat
  stype : String
  assignees : List ApprovalAssignee
deriving DecidableEq, Repr

/-- The read-only environment of `create_approval_request`: which
contract ids exist and which flow templates exist (the stage list
standing for the parsed `definition_json`). -/
structure CreateEnv where
  contracts : List String
  flows : List (String × List ApprovalStageDef)

/-- Python truthiness of the `Optional[List]` in `elif request.stages:`:
`None` and the empty list are falsy. -/
def stagesTruthy : Option (List ApprovalStageDef) → Bool
  | none => false
  | some l => !l.isEmpty

/-- The `(stage, assignee)` fan-out order of the task-creation loop. -/
def fanOutPairs (stages : List ApprovalStageDef) : List (Nat × ApprovalAssignee) :=
  (stages.map (fun sd => sd.assignees.map (fun a => (sd.stage, a)))).flatten

/-- The `ApprovalTask` rows created for the resolved stage definitions
(`uuid.uuid4()` per task modelled as the supplied id sequence). -/
def buildTasks (request_id : String) (taskIds : Nat → String)
    (stages : List ApprovalStageDef) : List ApprovalTask :=
  (fanOutPairs stages).enum.map (fun pr =>
    ⟨taskIds pr.1, request_id, pr.2.1, pr.2.2.aorder, pr.2.2.atype, pr.2.2.aid,
      .pending, none, none, none⟩)

/-- `POST /approvals/requests`: contract must exist (404); then
`if request.flow_id:` resolves the template (404 if missing) and its
stages win; `elif request.stages:` uses the inline stages; else 400
`flow_id または stages を指定してください`.  Each error is raised before
any row is added.  On success the request row and the fanned-out task
rows are created (the `approval.request_created` audit append and the
stage-1 notifications follow; they do not affect which branch is
taken). -/
def create_approval_request (env : CreateEnv) (contract_id : String)
    (flow_id : Option String) (stages : Option (List ApprovalStageDef))
    (message : Option String) (due_at : Option Nat) (created_by : String)
    (request_id : String) (taskIds : Nat → String) :
    Except ApiErr (ApprovalRequest × List ApprovalTask) :=
  if !env.contracts.contains contract_id then
    .error (.notFound "契約書が見つかりません")
  else if truthy flow_id then
    match env.flows.find? (fun f => some f.1 == flow_id) with
    | none => .error (.notFound "承認フローが見つかりません")
    | some fl =>
      .ok (⟨request_id, contract_id, flow_id, due_at, .pending, message, created_by⟩,
           buildTasks request_id taskIds fl.2)
  else if stagesTruthy stages then
    .ok (⟨request_id, contract_id, flow_id, due_at, .pending, message, created_by⟩,
         buildTasks request_id taskIds (stages.getD []))
  else
    .error (.badRequest "flow_id または stages を指定してください")

/-- C3 (amended): given the contract exists, `create_request` fails with
the `ValidationError` (`flow_id または stages を指定してください`) exactly
when NEITHER a truthy `flow_id` nor a non-empty `stages` list is supplied
— and on that failure nothing is created (the error is raised before any
row is added).  Supplying BOTH does not fail: the template takes
precedence and the tasks are fanned out from the flow's stages, the
inline stages being ignored. -/
theorem create_request_validation (env : CreateEnv) (contract_id : String)
    (flow_id : Option String) (stages : Option (List ApprovalStageDef))
    (message : Option String) (due_at : Option Nat) (created_by request_id : String)
    (taskIds : Nat → String) (hc : env.contracts.contains contract_id = true) :
    (create_approval_request env contract_id flow_id stages message due_at created_by request_id taskIds =
        .error (.badRequest "flow_id または stages を指定してください")
      ↔ truthy flow_id = false ∧ stagesTruthy stages = false)
    ∧ (∀ fl, truthy flow_id = true → stagesTruthy stages = true →
        env.flows.find? (fun f => some f.1 == flow_id) = some fl →
        create_approval_request env contract_id flow_id stages message due_at created_by request_id taskIds =
          .ok (⟨request_id, contract_id, flow_id, due_at, .pending, message, created_by⟩,
               buildTasks request_id taskIds fl.2)) := by
  have hc' : contract_id ∈ env.contracts := by
    simpa using hc
  constructor
  · constructor
    · intro h
      by_cases hf : truthy flow_id
      · exfalso
        cases hfind : env.flows.find? (fun f => some f.1 == flow_id) <;>
          simp [create_approval_request, hc', hf, hfind] at h
      · by_cases hs : stagesTruthy stages
        · simp [create_approval_request, hc', hf, hs] at h
        · exact ⟨by simpa using hf, by simpa using hs⟩
    · rintro ⟨hf, hs⟩
      simp [create_approval_request, hc', hf, hs]
  · intro fl hf hs hfind
    simp [create_approval_request, hc', hf, hfind]

/-- The concrete environment for the C3 counterexample and witness: one
contract and one single-stage flow template. -/
def cxEnv : CreateEnv :=
  ⟨["c1"], [("f1", [⟨1, "sequential", [⟨.user, "u1", 1⟩]⟩])]⟩

/-- C3 counterexample: supplying BOTH a flow reference and inline stages
does not fail — the call succeeds, building the tasks from the template
(stage 1, assignee `u1`) and ignoring the inline stages (stage 2,
assignee `u2`); the claim that every both-supplied input fails is
false. -/
theorem create_request_validation_cx :
    truthy (some "f1") = true ∧
    stagesTruthy (some [⟨2, "parallel", [⟨.user, "u2", 1⟩]⟩]) = true ∧
    create_approval_request cxEnv "c1" (some "f1") (some [⟨2, "parallel", [⟨.user, "u2", 1⟩]⟩])
      none none "creator" "r1" (fun i => "t" ++ toString i) =
      .ok (⟨"r1", "c1", some "f1", none, .pending, none, "creator"⟩,
           [⟨"t0", "r1", 1, 1, .user, "u1", .pending, none, none, none⟩]) := by
  refine ⟨by rfl, by rfl, by rfl⟩

theorem create_request_validation_witness :
    cxEnv.contracts.contains "c1" = true ∧
    create_approval_request cxEnv "c1" none none none none "creator" "r1"
      (fun i => "t" ++ toString i) =
      .error (.badRequest "flow_id または stages を指定してください") :=
  ⟨by rfl,
    ((create_request_validation cxEnv "c1" none none none none "creator" "r1"
      (fun i => "t" ++ toString i) (by rfl)).1).mpr ⟨rfl, rfl⟩⟩

/-- Acting on tasks one at a time: sequential `approve_task` calls (no
comment or signature, as `approve` requires neither), stopping at the
first error — the behaviour of issuing the HTTP calls in order. -/
def runApprovals (st : WfState) (ids : List String) (now : Nat) : Except ApiErr WfState :=
  match ids with
  | [] => .ok st
  | i :: rest =>
    match approve_task st i none none now with
    | .ok st' => runApprovals st' rest now
    | .error e => .error e

/-- What `approve_task` (with no comment/signature) writes into a task
row. -/
def approvedMark (now : Nat) (t : ApprovalTask) : ApprovalTask :=
  { t with status := .approved, acted_at := some now, comment := none, signature_hash := none }

/-- The task set after the tasks with ids in `done` have been approved. -/
def markDone (done : List String) (now : Nat) (T : List ApprovalTask) : List ApprovalTask :=
  T.map (fun t => if t.id ∈ done then approvedMark now t else t)

/-- The request status after the tasks with ids in `done` have been
approved, starting from `pending` (for an all-pending initial task
set). -/
def statusFor (T : List ApprovalTask) (done : List String) : ApprovalRequestStatus :=
  if T.all (fun t => t.id ∈ done) then .approved else .pending

theorem check_and_progress_tasks (st : WfState) :
    (check_and_progress_request st).tasks = st.tasks := by
  unfold check_and_progress_request
  split
  · rfl
  split
  · rfl
  split
  · rfl
  · rfl

theorem check_and_progress_audit (st : WfState) :
    (check_and_progress_request st).audit = st.audit := by
  unfold check_and_progress_request
  split
  · rfl
  split
  · rfl
  split
  · rfl
  · rfl

theorem markDone_nil (now : Nat) (T : List ApprovalTask) : markDone [] now T = T := by
  induction T with
  | nil => rfl
  | cons t T ih =>
    simp only [markDone, List.map_cons] at ih ⊢
    rw [ih]
    simp

theorem markDone_all_approved (done : List String) (now : Nat) (T : List ApprovalTask)
    (hT : ∀ t ∈ T, t.status = .pending) :
    ((markDone done now T).all (fun t => t.status == .approved)) =
      T.all (fun t => t.id ∈ done) := by
  induction T with
  | nil => rfl
  | cons t T ih =>
    have ht := hT t (by simp)
    simp only [markDone, List.map_cons, List.all_cons] at ih ⊢
    rw [ih (fun x hx => hT x (by simp [hx]))]
    by_cases h : t.id ∈ done
    · simp [h, approvedMark]
    · simp [h, ht]

theorem markDone_none_rejected (done : List String) (now : Nat) (T : List ApprovalTask)
    (hT : ∀ t ∈ T, t.status = .pending) :
    ((markDone done now T).any (fun t => t.status == .rejected)) = false := by
  induction T with
  | nil => rfl
  | cons t T ih =>
    have ht := hT t (by simp)
    simp only [markDone, List.map_cons, List.any_cons] at ih ⊢
    rw [ih (fun x hx => hT x (by simp [hx]))]
    by_cases h : t.id ∈ done
    · simp [h, approvedMark]
    · simp [h, ht]

theorem markDone_none_returned (done : List String) (now : Nat) (T : List ApprovalTask)
    (hT : ∀ t ∈ T, t.status = .pending) :
    ((markDone done now T).any (fun t => t.status == .returned)) = false := by
  induction T with
  | nil => rfl
  | cons t T ih =>
    have ht := hT t (by simp)
    simp only [markDone, List.map_cons, List.any_cons] at ih ⊢
    rw [ih (fun x hx => hT x (by simp [hx]))]
    by_cases h : t.id ∈ done
    · simp [h, approvedMark]
    · simp [h, ht]

theorem find?_of_mem_nodup (i : String) (T : List ApprovalTask)
    (hnd : (T.map (fun t => t.id)).Nodup) (t0 : ApprovalTask) (ht0 : t0 ∈ T)
    (hid : t0.id = i) : T.find? (fun t => t.id == i) = some t0 := by
  induction T with
  | nil => cases ht0
  | cons t T ih =>
    simp only [List.map_cons, List.nodup_cons] at hnd
    rcases List.mem_cons.mp ht0 with rfl | hmem
    · exact List.find?_cons_of_pos _ (by simp [hid])
    · have hne : ¬ (t.id == i) = true := by
        simp only [beq_iff_eq]
        intro h
        exact hnd.1 (by rw [h, ← hid]; exact List.mem_map_of_mem _ hmem)
      have hstep : List.find? (fun t => t.id == i) (t :: T) = List.find? (fun t => t.id == i) T :=
        List.find?_cons_of_neg T hne
      rw [hstep]
      exact ih hnd.2 hmem

theorem markDone_replace_skip (T : List ApprovalTask) (done : List String) (now : Nat)
    (i : String) (t0 : ApprovalTask) (hno : ∀ t ∈ T, t.id ≠ i) :
    (markDone done now T).map (fun x => if x.id == i then approvedMark now t0 else x) =
      markDone (i :: done) now T := by
  induction T with
  | nil => rfl
  | cons t T ih =>
    have ht := hno t (by simp)
    simp only [markDone, List.map_cons] at ih ⊢
    rw [ih (fun x hx => hno x (by simp [hx]))]
    congr 1
    by_cases h : t.id ∈ done
    · simp [h, ht, approvedMark]
    · simp [h, ht]

theorem markDone_replace (T : List ApprovalTask) (done : List String) (now : Nat)
    (i : String) (hnd : (T.map (fun t => t.id)).Nodup) (hi : i ∉ done)
    (t0 : ApprovalTask) (ht0 : t0 ∈ T) (hid : t0.id = i) :
    (markDone done now T).map (fun x => if x.id == i then approvedMark now t0 else x) =
      markDone (i :: done) now T := by
  induction T with
  | nil => rfl
  | cons t T ih =>
    simp only [List.map_cons, List.nodup_cons] at hnd
    rcases List.mem_cons.mp ht0 with rfl | hmem
    · have hno : ∀ x ∈ T, x.id ≠ i := by
        intro x hx h
        exact hnd.1 (by rw [hid, ← h]; exact List.mem_map_of_mem _ hx)
      simp only [markDone, List.map_cons] at ih ⊢
      have hh : (if t0.id ∈ done then approvedMark now t0 else t0) = t0 := by
        rw [if_neg (by rw [hid]; exact hi)]
      rw [hh]
      have hskip := markDone_replace_skip T done now i t0 hno
      simp only [markDone] at hskip
      rw [hskip]
      congr 1
      · rw [if_pos (by simp [hid]), if_pos (by simp [hid])]
    · have hne : t.id ≠ i := by
        intro h
        exact hnd.1 (by rw [h, ← hid]; exact List.mem_map_of_mem _ hmem)
      simp only [markDone, List.map_cons] at ih ⊢
      rw [ih hnd.2 hmem]
      congr 1
      by_cases h : t.id ∈ done
      · simp [h, hne, approvedMark]
      · simp [h, hne]

theorem all_mem_congr (T : List ApprovalTask) (d1 d2 : List String)
    (h : ∀ x, x ∈ d1 ↔ x ∈ d2) :
    T.all (fun t => t.id ∈ d1) = T.all (fun t => t.id ∈ d2) := by
  induction T with
  | nil => rfl
  | cons t T ih =>
    simp only [List.all_cons, ih]
    congr 1
    exact decide_eq_decide.mpr (h t.id)

theorem markDone_congr (d1 d2 : List String) (h : ∀ x, x ∈ d1 ↔ x ∈ d2)
    (now : Nat) (T : List ApprovalTask) : markDone d1 now T = markDone d2 now T := by
  unfold markDone
  apply List.map_congr_left
  intro t _
  by_cases hx : t.id ∈ d1
  · rw [if_pos hx, if_pos ((h t.id).mp hx)]
  · rw [if_neg hx, if_neg (fun hh => hx ((h t.id).mpr hh))]

theorem statusFor_congr (T : List ApprovalTask) (d1 d2 : List String)
    (h : ∀ x, x ∈ d1 ↔ x ∈ d2) : statusFor T d1 = statusFor T d2 := by
  unfold statusFor
  rw [all_mem_congr T d1 d2 h]

theorem check_and_progress_marked (req : ApprovalRequest) (hreq : req.status = .pending)
    (T : List ApprovalTask) (aud : List WfAuditCall) (now : Nat) (done : List String)
    (hT : ∀ t ∈ T, t.status = .pending) :
    check_and_progress_request ⟨req, markDone done now T, aud⟩ =
      ⟨{ req with status := statusFor T done }, markDone done now T, aud⟩ := by
  unfold check_and_progress_request statusFor
  by_cases h : T.all (fun t => t.id ∈ done) = true
  · rw [if_pos (by rw [markDone_all_approved done now T hT]; exact h), if_pos h]
  · rw [if_neg (by rw [markDone_all_approved done now T hT]; exact h),
      if_neg (by rw [markDone_none_rejected done now T hT]; simp),
      if_neg (by rw [markDone_none_returned done now T hT]; simp), if_neg h]
    have : ({ req with status := ApprovalRequestStatus.pending } : ApprovalRequest) = req := by
      rw [← hreq]
    rw [this]

theorem find?_markDone (done : List String) (now : Nat) (T : List ApprovalTask) (i : String) :
    (markDone done now T).find? (fun t => t.id == i) =
      (T.find? (fun t => t.id == i)).map (fun t => if t.id ∈ done then approvedMark now t else t) := by
  unfold markDone
  rw [List.find?_map]
  have hp : ((fun t : ApprovalTask => t.id == i) ∘ fun t => if t.id ∈ done then approvedMark now t else t) =
      (fun t : ApprovalTask => t.id == i) := by
    funext t
    by_cases h : t.id ∈ done
    · simp [h, approvedMark]
    · simp [h]
  rw [hp]

theorem approve_task_marked (req : ApprovalRequest) (hreq : req.status = .pending)
    (T : List ApprovalTask) (aud : List WfAuditCall) (now : Nat)
    (done : List String) (i : String)
    (hT : ∀ t ∈ T, t.status = .pending)
    (hnd : (T.map (fun t => t.id)).Nodup)
    (hi : i ∉ done) (t0 : ApprovalTask) (ht0 : t0 ∈ T) (hid : t0.id = i) :
    approve_task ⟨req, markDone done now T, aud⟩ i none none now =
      .ok ⟨{ req with status := statusFor T (i :: done) }, markDone (i :: done) now T,
           aud ++ [⟨"approval.approved", taskActor t0, some t0.id, some "approval_task", none⟩]⟩ := by
  have hfind : (markDone done now T).find? (fun t => t.id == i) = some t0 := by
    rw [find?_markDone, find?_of_mem_nodup i T hnd t0 ht0 hid]
    simp [hid, hi]
  unfold approve_task
  rw [hfind]
  have hst : (t0.status != ApprovalTaskStatus.pending) = false := by
    simp [hT t0 ht0]
  simp only [hst, Bool.false_eq_true, if_false]
  have hrepl : (markDone done now T).map (fun x => if (x.id == i) = true then
      { id := t0.id, request_id := t0.request_id, stage := t0.stage, order := t0.order,
        assignee_type := t0.assignee_type, assignee_id := t0.assignee_id,
        status := ApprovalTaskStatus.approved, acted_at := some now, comment := none,
        signature_hash := none } else x) = markDone (i :: done) now T :=
    markDone_replace T done now i hnd hi t0 ht0 hid
  rw [hrepl]
  rw [check_and_progress_marked req hreq T aud now (i :: done) hT]

theorem runApprovals_marked (req : ApprovalRequest) (T : List ApprovalTask) (now : Nat)
    (hT : ∀ t ∈ T, t.status = .pending)
    (hnd : (T.map (fun t => t.id)).Nodup)
    (ids : List String) (hids : ids.Nodup)
    (hsub : ∀ i ∈ ids, ∃ t ∈ T, t.id = i)
    (done : List String) (hdisj : ∀ i ∈ ids, i ∉ done) (aud : List WfAuditCall) :
    ∃ aud', runApprovals ⟨{ req with status := statusFor T done }, markDone done now T, aud⟩ ids now =
      .ok ⟨{ req with status := statusFor T (ids ++ done) }, markDone (ids ++ done) now T, aud'⟩ := by
  induction ids generalizing done aud with
  | nil => exact ⟨aud, by simp [runApprovals]⟩
  | cons i ids ih =>
    obtain ⟨t0, ht0, hid⟩ := hsub i (by simp)
    have hi : i ∉ done := hdisj i (by simp)
    have hnotall : ¬ (T.all (fun t => t.id ∈ done) = true) := by
      intro hall
      have h2 := List.all_eq_true.mp hall t0 ht0
      rw [hid] at h2
      exact hi (of_decide_eq_true h2)
    have hpend : statusFor T done = .pending := by
      unfold statusFor
      rw [if_neg hnotall]
    have hstep := approve_task_marked ({ req with status := statusFor T done }) hpend
      T aud now done i hT hnd hi t0 ht0 hid
    have hnodup := List.nodup_cons.mp hids
    have hdisj' : ∀ j ∈ ids, j ∉ i :: done := by
      intro j hj
      simp only [List.mem_cons]
      rintro (rfl | hjd)
      · exact hnodup.1 hj
      · exact hdisj j (by simp [hj]) hjd
    obtain ⟨aud', hrun⟩ := ih hnodup.2 (fun j hj => hsub j (by simp [hj])) (i :: done) hdisj'
      (aud ++ [⟨"approval.approved", taskActor t0, some t0.id, some "approval_task", none⟩])
    refine ⟨aud', ?_⟩
    have hmemiff : ∀ x, x ∈ ids ++ (i :: done) ↔ x ∈ (i :: ids) ++ done := by
      intro x
      simp only [List.mem_append, List.mem_cons]
      tauto
    calc runApprovals ⟨{ req with status := statusFor T done }, markDone done now T, aud⟩ (i :: ids) now
        = runApprovals ⟨{ req with status := statusFor T (i :: done) },
            markDone (i :: done) now T,
            aud ++ [⟨"approval.approved", taskActor t0, some t0.id, some "approval_task", none⟩]⟩ ids now := by
          simp only [runApprovals]
          rw [hstep]
      _ = .ok ⟨{ req with status := statusFor T (ids ++ (i :: done)) },
            markDone (ids ++ (i :: done)) now T, aud'⟩ := hrun
      _ = .ok ⟨{ req with status := statusFor T ((i :: ids) ++ done) },
            markDone ((i :: ids) ++ done) now T, aud'⟩ := by
          rw [statusFor_congr T (ids ++ (i :: done)) ((i :: ids) ++ done) hmemiff,
            markDone_congr (ids ++ (i :: done)) ((i :: ids) ++ done) hmemiff now T]

/-- C4: starting from a request whose tasks are all pending (distinct
task ids, at least one task), approving the tasks one at a time in ANY
order succeeds, and the request status is `approved` exactly when every
task of the request has been individually approved — e.g. a request with
two stage-1 tasks and one stage-2 task reaches `approved` precisely
after all three approvals, regardless of order (`approve_task` never
consults stage numbers, and `_check_and_progress_request` sets
`approved` iff every task row is `approved`). -/
theorem all_approved_closure (req : ApprovalRequest) (T : List ApprovalTask)
    (aud : List WfAuditCall) (now : Nat)
    (hreq : req.status = .pending)
    (hT : ∀ t ∈ T, t.status = .pending)
    (hnd : (T.map (fun t => t.id)).Nodup)
    (hne : T ≠ [])
    (ids : List String) (hids : ids.Nodup) (hsub : ∀ i ∈ ids, ∃ t ∈ T, t.id = i) :
    ∃ st', runApprovals ⟨req, T, aud⟩ ids now = .ok st' ∧
      (st'.request.status = .approved ↔ ∀ t ∈ T, t.id ∈ ids) := by
  obtain ⟨aud', hrun⟩ := runApprovals_marked req T now hT hnd ids hids hsub []
    (fun i _ => List.not_mem_nil i) aud
  rw [List.append_nil] at hrun
  have h0 : statusFor T [] = .pending := by
    unfold statusFor
    rw [if_neg]
    intro hall
    obtain ⟨t, ht⟩ := List.exists_mem_of_ne_nil T hne
    have := List.all_eq_true.mp hall t ht
    simp at this
  have hs : ({ req with status := statusFor T [] } : ApprovalRequest) = req := by
    rw [h0, ← hreq]
  rw [hs, markDone_nil] at hrun
  refine ⟨_, hrun, ?_⟩
  show ({ req with status := statusFor T ids } : ApprovalRequest).status = .approved ↔ _
  unfold statusFor
  by_cases hall : T.all (fun t => t.id ∈ ids) = true
  · rw [if_pos hall]
    simp only [true_iff, iff_true]
    intro t ht
    exact of_decide_eq_true (List.all_eq_true.mp hall t ht)
  · rw [if_neg hall]
    constructor
    · intro h
      exact absurd h (by simp)
    · intro h
      exact absurd (List.all_eq_true.mpr (fun t ht => decide_eq_true (h t ht))) hall

/-- The concrete request/tasks of the C4 and C5 witnesses: two stage-1
tasks and one stage-2 task, all pending. -/
def wTasks : List ApprovalTask :=
  [⟨"t1", "r1", 1, 1, .user, "u1", .pending, none, none, none⟩,
   ⟨"t2", "r1", 1, 2, .user, "u2", .pending, none, none, none⟩,
   ⟨"t3", "r1", 2, 1, .user, "u3", .pending, none, none, none⟩]

def wReq : ApprovalRequest := ⟨"r1", "c1", none, none, .pending, none, "creator"⟩

theorem all_approved_closure_witness :
    (wReq.status = .pending ∧ (∀ t ∈ wTasks, t.status = .pending) ∧
      (wTasks.map (fun t => t.id)).Nodup ∧ wTasks ≠ [] ∧
      (["t3", "t1", "t2"] : List String).Nodup ∧
      (∀ i ∈ (["t3", "t1", "t2"] : List String), ∃ t ∈ wTasks, t.id = i)) ∧
    (∃ st', runApprovals ⟨wReq, wTasks, []⟩ ["t3", "t1", "t2"] 5 = .ok st' ∧
      (st'.request.status = .approved ↔ ∀ t ∈ wTasks, t.id ∈ (["t3", "t1", "t2"] : List String))) :=
  ⟨by decide,
    all_approved_closure wReq wTasks [] 5 (by decide) (by decide) (by decide) (by decide)
      ["t3", "t1", "t2"] (by decide) (by decide)⟩

/-- C5: whatever the states of the other tasks (any stages, any mix of
approved/pending/other outcomes elsewhere), rejecting any single pending
task succeeds (given a non-empty rejection comment, which the endpoint
requires) and immediately sets the WHOLE request's status to `rejected`
— `reject_task` writes `ApprovalRequestStatus.REJECTED` directly,
without consulting stages or sibling tasks. -/
theorem rejection_short_circuit (st : WfState) (t : ApprovalTask)
    (hfind : st.tasks.find? (fun x => x.id == t.id) = some t)
    (hpend : t.status = .pending) (comment : String) (hcomment : comment ≠ "")
    (signature : Option String) (now : Nat) :
    ∃ st', reject_task st t.id (some comment) signature now = .ok st' ∧
      st'.request.status = .rejected := by
  unfold reject_task
  rw [hfind]
  have h1 : (t.status != ApprovalTaskStatus.pending) = false := by
    simp [hpend]
  have h2 : (!truthy (some comment)) = false := by
    simp [truthy, hcomment]
  simp only [h1, h2, Bool.false_eq_true, if_false]
  exact ⟨_, rfl, rfl⟩

def w5Tasks : List ApprovalTask :=
  [⟨"t1", "r1", 1, 1, .user, "u1", .approved, some 1, none, none⟩,
   ⟨"t2", "r1", 1, 2, .user, "u2", .pending, none, none, none⟩,
   ⟨"t3", "r1", 2, 1, .user, "u3", .pending, none, none, none⟩]

def w5Task : ApprovalTask := ⟨"t3", "r1", 2, 1, .user, "u3", .pending, none, none, none⟩

theorem rejection_short_circuit_witness :
    ((⟨wReq, w5Tasks, []⟩ : WfState).tasks.find? (fun x => x.id == w5Task.id) = some w5Task ∧
      w5Task.status = .pending ∧ "dame" ≠ "") ∧
    (∃ st', reject_task ⟨wReq, w5Tasks, []⟩ w5Task.id (some "dame") none 7 = .ok st' ∧
      st'.request.status = .rejected) :=
  ⟨by decide,
    rejection_short_circuit ⟨wReq, w5Tasks, []⟩ w5Task (by decide) (by decide) "dame"
      (by decide) none 7⟩

theorem find?_replace (T : List ApprovalTask) (tid : String) (t t' : ApprovalTask)
    (hfind : T.find? (fun x => x.id == tid) = some t) (hid : t'.id = t.id) :
    (T.map (fun x => if x.id == tid then t' else x)).find? (fun x => x.id == tid) = some t' := by
  have htid : t.id = tid := by
    simpa using List.find?_some hfind
  rw [List.find?_map]
  have hp : ((fun x : ApprovalTask => x.id == tid) ∘ fun x => if x.id == tid then t' else x) =
      (fun x : ApprovalTask => x.id == tid) := by
    funext x
    by_cases hx : x.id = tid
    · simp [hx, hid, htid]
    · simp [hx]
  rw [hp, hfind]
  simp [htid]

/-- After any single successful `act_on_task` on a task, the stored task
row has left `pending`. -/
theorem act_ok_find (a : TaskAction) (st st1 : WfState) (tid : String)
    (c s : Option String) (n : Nat) (h : act_on_task a st tid c s n = .ok st1) :
    ∃ t', st1.tasks.find? (fun x => x.id == tid) = some t' ∧ t'.status ≠ .pending := by
  cases a
  case approve =>
    unfold act_on_task approve_task at h
    cases hfind : st.tasks.find? (fun x => x.id == tid) with
    | none =>
      simp only [hfind] at h
      exact Except.noConfusion h
    | some t =>
      simp only [hfind] at h
      by_cases hp : (t.status != ApprovalTaskStatus.pending) = true
      · simp only [hp, if_true] at h
        exact Except.noConfusion h
      · rw [Bool.not_eq_true] at hp
        simp only [hp, Bool.false_eq_true, if_false, Except.ok.injEq] at h
        refine Exists.intro
          { t with status := ApprovalTaskStatus.approved, acted_at := some n, comment := c, signature_hash := s }
          (And.intro ?_ (by simp))
        rw [← h]
        simp only [check_and_progress_tasks]
        exact find?_replace st.tasks tid t _ hfind rfl
  case reject =>
    unfold act_on_task reject_task at h
    cases hfind : st.tasks.find? (fun x => x.id == tid) with
    | none =>
      simp only [hfind] at h
      exact Except.noConfusion h
    | some t =>
      simp only [hfind] at h
      by_cases hp : (t.status != ApprovalTaskStatus.pending) = true
      · simp only [hp, if_true] at h
        exact Except.noConfusion h
      · rw [Bool.not_eq_true] at hp
        by_cases hcm : (!truthy c) = true
        · simp only [hp, Bool.false_eq_true, if_false, hcm, if_true] at h
          exact Except.noConfusion h
        · rw [Bool.not_eq_true] at hcm
          simp only [hp, hcm, Bool.false_eq_true, if_false, Except.ok.injEq] at h
          refine Exists.intro
            { t with status := ApprovalTaskStatus.rejected, acted_at := some n, comment := c, signature_hash := s }
            (And.intro ?_ (by simp))
          rw [← h]
          exact find?_replace st.tasks tid t _ hfind rfl
  case sendBack =>
    unfold act_on_task return_task at h
    cases hfind : st.tasks.find? (fun x => x.id == tid) with
    | none =>
      simp only [hfind] at h
      exact Except.noConfusion h
    | some t =>
      simp only [hfind] at h
      by_cases hp : (t.status != ApprovalTaskStatus.pending) = true
      · simp only [hp, if_true] at h
        exact Except.noConfusion h
      · rw [Bool.not_eq_true] at hp
        by_cases hcm : (!truthy c) = true
        · simp only [hp, Bool.false_eq_true, if_false, hcm, if_true] at h
          exact Except.noConfusion h
        · rw [Bool.not_eq_true] at hcm
          simp only [hp, hcm, Bool.false_eq_true, if_false, Except.ok.injEq] at h
          refine Exists.intro
            { t with status := ApprovalTaskStatus.returned, acted_at := some n, comment := c }
            (And.intro ?_ (by simp))
          rw [← h]
          exact find?_replace st.tasks tid t _ hfind rfl

/-- C6: once a task has been successfully acted on (approved, rejected
or returned), EVERY further `act_on_task` call on it — any action kind,
any comment/signature, any later time — fails with the `ConflictError`
(400 `このタスクは既に処理済みです`).  The check `task.status != PENDING`
is the first guard of each endpoint and the exception is raised before
any row is touched and before `audit_service.log_event`, so the second
call changes nothing and appends no second audit event (an `.error`
result carries no new state). -/
theorem double_action_conflict (a1 a2 : TaskAction) (st st1 : WfState) (task_id : String)
    (c1 s1 c2 s2 : Option String) (n1 n2 : Nat)
    (h1 : act_on_task a1 st task_id c1 s1 n1 = .ok st1) :
    act_on_task a2 st1 task_id c2 s2 n2 = .error (.badRequest "このタスクは既に処理済みです") := by
  obtain ⟨t', hfind, hstat⟩ := act_ok_find a1 st st1 task_id c1 s1 n1 h1
  have hne : (t'.status != ApprovalTaskStatus.pending) = true := by
    simp [hstat]
  cases a2
  case approve =>
    unfold act_on_task approve_task
    simp only [hfind, hne, if_true]
  case reject =>
    unfold act_on_task reject_task
    simp only [hfind, hne, if_true]
  case sendBack =>
    unfold act_on_task return_task
    simp only [hfind, hne, if_true]

/-- The single-task state and post-approval state of the C6 witness. -/
def w6Task : ApprovalTask := ⟨"t1", "r1", 1, 1, .user, "u1", .pending, none, none, none⟩

def w6St1 : WfState :=
  ⟨{ wReq with status := .approved },
   [⟨"t1", "r1", 1, 1, .user, "u1", .approved, some 3, none, none⟩],
   [⟨"approval.approved", some "u1", some "t1", some "approval_task", none⟩]⟩

theorem double_action_conflict_witness :
    act_on_task .approve ⟨wReq, [w6Task], []⟩ "t1" none none 3 = .ok w6St1 ∧
    act_on_task .reject w6St1 "t1" (some "x") none 4 =
      .error (.badRequest "このタスクは既に処理済みです") :=
  ⟨by rfl,
    double_action_conflict .approve .reject ⟨wReq, [w6Task], []⟩ w6St1 "t1"
      none none (some "x") none 3 4 (by rfl)⟩

/-! ## Magic links (`app/api/approvals.py`, magic-link endpoints)

`MagicLink` rows carry the columns the endpoints read or write.  The
SHA-256 over the raw token is abstracted as `Hm : String → String` (only
"equal tokens hash equal" is used).  `secrets.token_urlsafe(32)` is
modelled as a caller-supplied raw token and `uuid4()` as a supplied link
id.  Time is `Nat` seconds; `timedelta(hours=h)` is `h * 3600`.
`token_hash` carries a UNIQUE constraint in the model layer, so the
single row the ORM mutates is modelled as replacing the matching
rows. -/

structure MagicLink where
  id : String
  task_id : String
  token_hash : String
  expires_at : Nat
  revoked_at : Option Nat
  consumed_at : Option Nat
deriving DecidableEq, Repr

/-- What `POST /approvals/tasks/{task_id}/magic-link` returns (the raw
token is returned exactly once, at issuance). -/
structure MagicLinkIssued where
  id : String
  task_id : String
  token : String
  expires_at : Nat
deriving DecidableEq, Repr

/-- `POST /approvals/tasks/{task_id}/magic-link`: the task must exist
(404); every existing link of the task with `revoked_at IS NULL AND
consumed_at IS NULL` is revoked (note: expiry is NOT part of that
filter); then the new link is inserted storing only the token hash. -/
def create_magic_link (Hm : String → String) (tasks : List ApprovalTask)
    (links : List MagicLink) (task_id link_id raw_token : String)
    (now expires_hours : Nat) : Except ApiErr (List MagicLink × MagicLinkIssued) :=
  match tasks.find? (fun t => t.id == task_id) with
  | none => .error (.notFound "承認タスクが見つかりません")
  | some _ =>
    let links' := links.map (fun l =>
      if l.task_id == task_id && l.revoked_at == none && l.consumed_at == none then
        { l with revoked_at := some now } else l)
    let expires := now + expires_hours * 3600
    .ok (links' ++ [⟨link_id, task_id, Hm raw_token, expires, none, none⟩],
         ⟨link_id, task_id, raw_token, expires⟩)

/-- What `POST /approvals/magic-link/{token}/consume` returns on
success: `task_id`/`request_id` are null when the referenced task row no
longer exists. -/
structure ConsumeResult where
  valid : Bool
  task_id : Option String
  request_id : Option String
deriving DecidableEq, Repr

/-- `POST /approvals/magic-link/{token}/consume`: look the link up by the
HASH of the presented token (404 `無効なリンクです` if no match); then in
order: revoked → 400, already consumed → 400, past expiry (strict
`utcnow() > expires_at`) → 400; otherwise mark `consumed_at` and look up
the bound task — without any existence or pendingness requirement on
it. -/
def consume_magic_link (Hm : String → String) (tasks : List ApprovalTask)
    (links : List MagicLink) (token : String) (now : Nat) :
    Except ApiErr (List MagicLink × ConsumeResult) :=
  let token_hash := Hm token
  match links.find? (fun l => l.token_hash == token_hash) with
  | none => .error (.notFound "無効なリンクです")
  | some l =>
    if l.revoked_at.isSome then .error (.badRequest "このリンクは無効化されています")
    else if l.consumed_at.isSome then .error (.badRequest "このリンクは既に使用されています")
    else if l.expires_at < now then .error (.badRequest "このリンクは期限切れです")
    else
      let links' := links.map (fun x =>
        if x.token_hash == token_hash then { x with consumed_at := some now } else x)
      match tasks.find? (fun t => t.id == l.task_id) with
      | some t => .ok (links', ⟨true, some t.id, some t.request_id⟩)
      | none => .ok (links', ⟨true, none, none⟩)

/-- `DELETE /approvals/magic-link/{link_id}`: 404 if the id is unknown,
otherwise stamp `revoked_at` with the current time — with no check of
the previous revocation state. -/
def revoke_magic_link (links : List MagicLink) (link_id : String) (now : Nat) :
    Except ApiErr (List MagicLink × String) :=
  match links.find? (fun l => l.id == link_id) with
  | none => .error (.notFound "リンクが見つかりません")
  | some _ =>
    .ok (links.map (fun l => if l.id == link_id then { l with revoked_at := some now } else l),
         "リンクを失効しました")

theorem find?_map_token (links : List MagicLink) (th : String) (f : MagicLink → MagicLink)
    (hf : ∀ x, (f x).token_hash = x.token_hash) :
    (links.map f).find? (fun x => x.token_hash == th) =
      (links.find? (fun x => x.token_hash == th)).map f := by
  rw [List.find?_map]
  have hp : ((fun x : MagicLink => x.token_hash == th) ∘ f) =
      (fun x : MagicLink => x.token_hash == th) := by
    funext x
    simp [hf x]
  rw [hp]

/-- C7: consuming a valid magic link succeeds at most once — after one
successful consume, every further consume presenting the same raw token
(hence the same stored hash) fails with the `AlreadyUsedError`
(400 `このリンクは既に使用されています`), whatever the task table and the
later time; and the error taxonomy is exactly: no stored hash matches →
`NotFoundError` (404), revoked → `RevokedError`, unrevoked but already
consumed → `AlreadyUsedError`, live but current time past expiry →
`ExpiredError` (checked against the current time `utcnow() >
expires_at`). -/
theorem one_time_consumption (Hm : String → String) (tasks : List ApprovalTask)
    (links : List MagicLink) (token : String) (n1 : Nat) :
    (∀ links' r, consume_magic_link Hm tasks links token n1 = .ok (links', r) →
      ∀ tasks2 n2, consume_magic_link Hm tasks2 links' token n2 =
        .error (.badRequest "このリンクは既に使用されています"))
    ∧ (links.find? (fun l => l.token_hash == Hm token) = none →
        consume_magic_link Hm tasks links token n1 = .error (.notFound "無効なリンクです"))
    ∧ (∀ l, links.find? (fun l => l.token_hash == Hm token) = some l →
        l.revoked_at.isSome = true →
        consume_magic_link Hm tasks links token n1 =
          .error (.badRequest "このリンクは無効化されています"))
    ∧ (∀ l, links.find? (fun l => l.token_hash == Hm token) = some l →
        l.revoked_at = none → l.consumed_at.isSome = true →
        consume_magic_link Hm tasks links token n1 =
          .error (.badRequest "このリンクは既に使用されています"))
    ∧ (∀ l, links.find? (fun l => l.token_hash == Hm token) = some l →
        l.revoked_at = none → l.consumed_at = none → l.expires_at < n1 →
        consume_magic_link Hm tasks links token n1 =
          .error (.badRequest "このリンクは期限切れです")) := by
  refine ⟨?_, ?_, ?_, ?_, ?_⟩
  · intro links' r h tasks2 n2
    unfold consume_magic_link at h
    cases hfind : links.find? (fun l => l.token_hash == Hm token) with
    | none =>
      simp only [hfind] at h
      exact Except.noConfusion h
    | some l =>
      simp only [hfind] at h
      by_cases h1 : l.revoked_at.isSome
      · simp only [h1, if_true] at h
        exact Except.noConfusion h
      · simp only [h1, Bool.false_eq_true, if_false] at h
        by_cases h2 : l.consumed_at.isSome
        · simp only [h2, if_true] at h
          exact Except.noConfusion h
        · simp only [h2, Bool.false_eq_true, if_false] at h
          by_cases h3 : l.expires_at < n1
          · simp only [if_pos h3] at h
            exact Except.noConfusion h
          · simp only [if_neg h3] at h
            have hlinks' : links.map (fun x =>
                if x.token_hash == Hm token then { x with consumed_at := some n1 } else x) =
                links' := by
              cases hts : tasks.find? (fun t => t.id == l.task_id) with
              | some t =>
                simp only [hts, Except.ok.injEq, Prod.mk.injEq] at h
                exact h.1
              | none =>
                simp only [hts, Except.ok.injEq, Prod.mk.injEq] at h
                exact h.1
            have hfind' : links'.find? (fun x => x.token_hash == Hm token) =
                some { l with consumed_at := some n1 } := by
              rw [← hlinks']
              rw [find?_map_token links (Hm token) _ (fun x => by
                by_cases hx : (x.token_hash == Hm token) = true <;> simp [hx])]
              rw [hfind]
              have hcond := List.find?_some hfind
              simp [hcond]
              intro hx
              exact absurd (by simpa using hcond) hx
            have hrev : l.revoked_at = none := Option.not_isSome_iff_eq_none.mp h1
            simp only [consume_magic_link, hfind', hrev, Option.isSome_none,
              Bool.false_eq_true, if_false, Option.isSome_some, if_true]
  · intro hfind
    simp only [consume_magic_link, hfind]
  · intro l hfind h1
    simp only [consume_magic_link, hfind, h1, if_true]
  · intro l hfind h1 h2
    simp only [consume_magic_link, hfind, h1, h2, Option.isSome_none, Bool.false_eq_true,
      if_false, if_true]
  · intro l hfind h1 h2 h3
    simp only [consume_magic_link, hfind, h1, h2, Option.isSome_none, Bool.false_eq_true,
      if_false, if_pos h3]

theorem one_time_consumption_witness :
    consume_magic_link (fun s => s) [] [⟨"l1", "t1", "tok", 100, none, none⟩] "tok" 5 =
      .ok ([⟨"l1", "t1", "tok", 100, none, some 5⟩], ⟨true, none, none⟩) ∧
    consume_magic_link (fun s => s) [] [⟨"l1", "t1", "tok", 100, none, some 5⟩] "tok" 9 =
      .error (.badRequest "このリンクは既に使用されています") :=
  ⟨by rfl,
    (one_time_consumption (fun s => s) [] [⟨"l1", "t1", "tok", 100, none, none⟩] "tok" 5).1
      [⟨"l1", "t1", "tok", 100, none, some 5⟩] ⟨true, none, none⟩ (by rfl) [] 9⟩

/-- One client-visible operation on the magic-link store.  A failing
call (missing task or link, reused token, ...) raises and leaves the
store unchanged. -/
inductive LinkOp where
  | issue (task_id link_id raw_token : String) (now expires_hours : Nat)
  | consume (token : String) (now : Nat)
  | revoke (link_id : String) (now : Nat)

def applyOp (Hm : String → String) (tasks : List ApprovalTask)
    (links : List MagicLink) : LinkOp → List MagicLink
  | .issue tid lid tok now hrs =>
    match create_magic_link Hm tasks links tid lid tok now hrs with
    | .ok pr => pr.1
    | .error _ => links
  | .consume tok now =>
    match consume_magic_link Hm tasks links tok now with
    | .ok pr => pr.1
    | .error _ => links
  | .revoke lid now =>
    match revoke_magic_link links lid now with
    | .ok pr => pr.1
    | .error _ => links

/-- The store after a sequence of issue/consume/revoke calls, starting
empty. -/
def runLinkOps (Hm : String → String) (tasks : List ApprovalTask)
    (ops : List LinkOp) : List MagicLink :=
  ops.foldl (applyOp Hm tasks) []

/-- A link of the task that is neither revoked nor consumed (what
issuance revokes). -/
def isOpenFor (tid : String) (l : MagicLink) : Bool :=
  l.task_id == tid && l.revoked_at == none && l.consumed_at == none

/-- A *live* link of the task: unrevoked, unconsumed and unexpired at
`now` (`consume` treats `now > expires_at` as expired). -/
def isLiveFor (tid : String) (now : Nat) (l : MagicLink) : Bool :=
  isOpenFor tid l && now ≤ l.expires_at

theorem countP_map_le (p : MagicLink → Bool) (f : MagicLink → MagicLink)
    (l : List MagicLink) (hf : ∀ x, p (f x) = true → p x = true) :
    (l.map f).countP p ≤ l.countP p := by
  rw [List.countP_map]
  exact List.countP_mono_left (fun x _ h => hf x h)

theorem applyOp_preserves_open (Hm : String → String) (tasks : List ApprovalTask)
    (links : List MagicLink) (op : LinkOp) (tid : String)
    (hinv : links.countP (isOpenFor tid) ≤ 1) :
    (applyOp Hm tasks links op).countP (isOpenFor tid) ≤ 1 := by
  cases op
  case issue u lid tok now hrs =>
    unfold applyOp create_magic_link
    cases hfind : tasks.find? (fun t => t.id == u) with
    | none => simpa [hfind] using hinv
    | some t =>
      simp only [hfind]
      rw [List.countP_append]
      by_cases htid : u = tid
      · subst htid
        have hz : (links.map (fun l =>
            if l.task_id == u && l.revoked_at == none && l.consumed_at == none then
              { l with revoked_at := some now } else l)).countP (isOpenFor u) = 0 := by
          rw [List.countP_eq_zero]
          intro a ha
          obtain ⟨x, _, rfl⟩ := List.mem_map.mp ha
          by_cases hx : (x.task_id == u && x.revoked_at == none && x.consumed_at == none) = true
          · simp only [hx, if_true]
            simp [isOpenFor]
          · simp only [hx, Bool.false_eq_true, if_false]
            simpa [isOpenFor] using hx
        rw [hz]
        simp [isOpenFor]
      · have hsame : (links.map (fun l =>
            if l.task_id == u && l.revoked_at == none && l.consumed_at == none then
              { l with revoked_at := some now } else l)).countP (isOpenFor tid) =
            links.countP (isOpenFor tid) := by
          rw [List.countP_map]
          apply List.countP_congr
          intro x _
          by_cases hx : (x.task_id == u && x.revoked_at == none && x.consumed_at == none) = true
          · have hxu : x.task_id = u := by
              have := (Bool.and_eq_true_iff.mp (Bool.and_eq_true_iff.mp hx).1).1
              simpa using this
            simp only [Function.comp_apply, hx, if_true]
            simp [isOpenFor, hxu, htid]
          · simp only [Function.comp_apply, hx, Bool.false_eq_true, if_false]
        rw [hsame]
        have hnew : (isOpenFor tid ⟨lid, u, Hm tok, now + hrs * 3600, none, none⟩) = false := by
          simp [isOpenFor]
          intro h
          exact absurd h htid
        simp [hnew, hinv]
  case consume tok now =>
    unfold applyOp consume_magic_link
    cases hfind : links.find? (fun l => l.token_hash == Hm tok) with
    | none => simpa [hfind] using hinv
    | some l =>
      simp only [hfind]
      by_cases h1 : l.revoked_at.isSome
      · simpa [h1] using hinv
      · by_cases h2 : l.consumed_at.isSome
        · simpa [h1, h2] using hinv
        · by_cases h3 : l.expires_at < now
          · simpa [h1, h2, h3] using hinv
          · have hle : (links.map (fun x =>
                if x.token_hash == Hm tok then { x with consumed_at := some now } else x)).countP
                  (isOpenFor tid) ≤ links.countP (isOpenFor tid) := by
              apply countP_map_le
              intro x hx
              by_cases hc : (x.token_hash == Hm tok) = true
              · rw [if_pos hc] at hx
                simp [isOpenFor] at hx
              · rwa [if_neg (by simpa using hc)] at hx
            cases hts : tasks.find? (fun t => t.id == l.task_id) <;>
              simpa [h1, h2, h3, hts] using le_trans hle hinv
  case revoke lid now =>
    unfold applyOp revoke_magic_link
    cases hfind : links.find? (fun l => l.id == lid) with
    | none => simpa [hfind] using hinv
    | some l =>
      have hle : (links.map (fun x =>
          if x.id == lid then { x with revoked_at := some now } else x)).countP
            (isOpenFor tid) ≤ links.countP (isOpenFor tid) := by
        apply countP_map_le
        intro x hx
        by_cases hc : (x.id == lid) = true
        · rw [if_pos hc] at hx
          simp [isOpenFor] at hx
        · rwa [if_neg (by simpa using hc)] at hx
      simpa [hfind] using le_trans hle hinv

/-- C8: for every sequence of issue/consume/revoke operations starting
from an empty store, and at every point in time, each task has at most
one live (unrevoked, unconsumed, unexpired) magic link: `create_magic_link`
first revokes every prior unrevoked-unconsumed link of the task, then
inserts the single new one, and consumption/revocation only shrink the
set of open links. -/
theorem at_most_one_live_link (Hm : String → String) (tasks : List ApprovalTask)
    (ops : List LinkOp) (tid : String) (now : Nat) :
    (runLinkOps Hm tasks ops).countP (isLiveFor tid now) ≤ 1 := by
  have key : ∀ (ops : List LinkOp) (links : List MagicLink),
      links.countP (isOpenFor tid) ≤ 1 →
      (ops.foldl (applyOp Hm tasks) links).countP (isOpenFor tid) ≤ 1 := by
    intro ops
    induction ops with
    | nil => exact fun links h => h
    | cons op ops ih =>
      intro links h
      exact ih _ (applyOp_preserves_open Hm tasks links op tid h)
  have hopen : (runLinkOps Hm tasks ops).countP (isOpenFor tid) ≤ 1 := key ops [] (by simp)
  refine le_trans (List.countP_mono_left ?_) hopen
  intro l _ h
  exact (Bool.and_eq_true_iff.mp h).1

theorem find?_map_linkid (links : List MagicLink) (lid : String) (f : MagicLink → MagicLink)
    (hf : ∀ x, (f x).id = x.id) :
    (links.map f).find? (fun x => x.id == lid) = (links.find? (fun x => x.id == lid)).map f := by
  rw [List.find?_map]
  have hp : ((fun x : MagicLink => x.id == lid) ∘ f) = (fun x : MagicLink => x.id == lid) := by
    funext x
    simp [hf x]
  rw [hp]

/-- C9 (amended): revoking an already-revoked link does not fail — the
second `revoke` succeeds and the link is (still) revoked — but the call
is not literally state-preserving: `revoked_at` is unconditionally
overwritten with the second call's current time, so the stored state
after the second revoke equals the state after the first only when the
two timestamps coincide. -/
theorem idempotent_revoke (links st1 : List MagicLink) (lid : String) (n1 n2 : Nat)
    (m : String) (h1 : revoke_magic_link links lid n1 = .ok (st1, m)) :
    revoke_magic_link st1 lid n2 =
      .ok (st1.map (fun l => if l.id == lid then { l with revoked_at := some n2 } else l),
           "リンクを失効しました") ∧
    ∀ l ∈ st1.map (fun l => if l.id == lid then { l with revoked_at := some n2 } else l),
      l.id = lid → l.revoked_at = some n2 := by
  unfold revoke_magic_link at h1
  cases hfind : links.find? (fun l => l.id == lid) with
  | none =>
    simp only [hfind] at h1
    exact Except.noConfusion h1
  | some l0 =>
    simp only [hfind, Except.ok.injEq, Prod.mk.injEq] at h1
    obtain ⟨hst1, -⟩ := h1
    have hc := List.find?_some hfind
    constructor
    · have hfind1 : st1.find? (fun l => l.id == lid) = some { l0 with revoked_at := some n1 } := by
        rw [← hst1, find?_map_linkid links lid _ (fun x => by
          by_cases hx : (x.id == lid) = true <;> simp [hx]), hfind]
        simp [hc]
        intro hx
        exact absurd (by simpa using hc) hx
      simp only [revoke_magic_link, hfind1]
    · intro a ha halid
      obtain ⟨x, hxmem, rfl⟩ := List.mem_map.mp ha
      by_cases hx : (x.id == lid) = true
      · simp [hx]
      · rw [if_neg (by simpa using hx)] at halid
        exact absurd halid (by simpa using hx)

/-- The link of the C9 counterexample and witness. -/
def c9Link : MagicLink := ⟨"l1", "t1", "h1", 100, none, none⟩

/-- C9 counterexample: revoking `l1` at time 1 and again at time 2 both
succeed, but the store after the second revoke (`revoked_at = 2`)
differs from the store after the first (`revoked_at = 1`):
`revoke_magic_link` stamps `datetime.utcnow()` unconditionally, so the
second call is not a state-preserving no-op. -/
theorem idempotent_revoke_cx :
    revoke_magic_link [c9Link] "l1" 1 =
      .ok ([⟨"l1", "t1", "h1", 100, some 1, none⟩], "リンクを失効しました") ∧
    revoke_magic_link [⟨"l1", "t1", "h1", 100, some 1, none⟩] "l1" 2 =
      .ok ([⟨"l1", "t1", "h1", 100, some 2, none⟩], "リンクを失効しました") ∧
    ([⟨"l1", "t1", "h1", 100, some 2, none⟩] : List MagicLink) ≠
      [⟨"l1", "t1", "h1", 100, some 1, none⟩] := by
  refine ⟨by rfl, by rfl, by decide⟩

theorem idempotent_revoke_witness :
    revoke_magic_link [c9Link] "l1" 1 =
      .ok ([⟨"l1", "t1", "h1", 100, some 1, none⟩], "リンクを失効しました") ∧
    (revoke_magic_link [⟨"l1", "t1", "h1", 100, some 1, none⟩] "l1" 2 =
        .ok (([⟨"l1", "t1", "h1", 100, some 1, none⟩] : List MagicLink).map
          (fun l => if l.id == "l1" then { l with revoked_at := some 2 } else l),
          "リンクを失効しました") ∧
      ∀ l ∈ ([⟨"l1", "t1", "h1", 100, some 1, none⟩] : List MagicLink).map
          (fun l => if l.id == "l1" then { l with revoked_at := some 2 } else l),
        l.id = "l1" → l.revoked_at = some 2) :=
  ⟨by rfl,
    idempotent_revoke [c9Link] [⟨"l1", "t1", "h1", 100, some 1, none⟩] "l1" 1 2
      "リンクを失効しました" (by rfl)⟩

/-- C10: a live magic link whose bound `ApprovalTask` row no longer
exists still consumes successfully — the link is marked consumed and the
endpoint returns `valid = true` with `task_id` and `request_id` null,
rather than a not-found error: `consume_magic_link` validates only the
link itself and never requires the bound task to exist (or be
pending). -/
theorem consume_orphan_link (Hm : String → String) (tasks : List ApprovalTask)
    (links : List MagicLink) (token : String) (now : Nat) (l : MagicLink)
    (hfind : links.find? (fun x => x.token_hash == Hm token) = some l)
    (hrev : l.revoked_at = none) (hcons : l.consumed_at = none)
    (hexp : ¬ l.expires_at < now)
    (htask : tasks.find? (fun t => t.id == l.task_id) = none) :
    consume_magic_link Hm tasks links token now =
      .ok (links.map (fun x =>
            if x.token_hash == Hm token then { x with consumed_at := some now } else x),
           ⟨true, none, none⟩) := by
  simp only [consume_magic_link, hfind, hrev, hcons, Option.isSome_none, Bool.false_eq_true,
    if_false, if_neg hexp, htask]

theorem consume_orphan_link_witness :
    (([⟨"l9", "t9", "tok9", 50, none, none⟩] : List MagicLink).find?
        (fun x => x.token_hash == (fun s : String => s) "tok9") =
      some ⟨"l9", "t9", "tok9", 50, none, none⟩ ∧
      ¬ (50 : Nat) < 10 ∧
      ([] : List ApprovalTask).find? (fun t => t.id == "t9") = none) ∧
    consume_magic_link (fun s : String => s) [] [⟨"l9", "t9", "tok9", 50, none, none⟩] "tok9" 10 =
      .ok ([⟨"l9", "t9", "tok9", 50, none, some 10⟩], ⟨true, none, none⟩) :=
  ⟨⟨by rfl, by decide, by rfl⟩,
    (consume_orphan_link (fun s : String => s) [] [⟨"l9", "t9", "tok9", 50, none, none⟩]
      "tok9" 10 ⟨"l9", "t9", "tok9", 50, none, none⟩ (by rfl) rfl rfl (by decide)
      (by rfl)).trans (by rfl)⟩
